import Mathlib

/-!
Verification of the balanced-resampling / model-selection / permutation-importance
pipeline of `predicting_diabetes_risk.py`.

Records carry a binary label (`Diabetes_binary`) and a vector of numeric features;
the numeric fields of the survey are embedded as rationals.
-/

namespace DiabetesRisk

/- ## Definitions -/

/-- One row of the survey table: the binary label `Diabetes_binary` plus the
remaining numeric feature fields, in column order. -/
structure Record where
  label : Bool
  features : List ℚ
deriving DecidableEq, Repr

/-- Embedding of `data[data['Diabetes_binary']==1]`: the rows whose label is 1,
in their original order (pandas boolean-mask filtering preserves row order). -/
def diabetes_group (data : List Record) : List Record :=
  data.filter (fun r => r.label == true)

/-- Embedding of `data[data['Diabetes_binary']==0]`: the rows whose label is 0, in order. -/
def nodiabetes_group (data : List Record) : List Record :=
  data.filter (fun r => r.label == false)

/-- Embedding of `g.sample(n, replace=True)`: draw `n` rows of `g` with replacement.  The
randomness is an explicit stream `draws`; the `i`-th drawn row is the one at
position `draws i % g.length`.  Sampling a positive number of rows from an
empty frame raises in pandas, embedded as `none`. -/
def sampleRep (g : List Record) (n : Nat) (draws : Nat → Nat) : Option (List Record) :=
  if n = 0 then some []
  else if g = [] then none
  else some ((List.range n).map (fun i => g.getD (draws i % g.length) ⟨false, []⟩))

/-- Embedding of `diabetes_group.sample(len(nodiabetes_group), replace=True)` (source line 144). -/
def diabetes_group_oversampled (data : List Record) (draws : Nat → Nat) :
    Option (List Record) :=
  sampleRep (diabetes_group data) (nodiabetes_group data).length draws

/-- Embedding of `pd.concat([diabetes_group_oversampled, nodiabetes_group], axis=0)`
(source line 146): the oversampled label-1 rows followed by the label-0 rows. -/
def data_oversampled (data : List Record) (draws : Nat → Nat) :
    Option (List Record) :=
  (diabetes_group_oversampled data draws).map (fun s => s ++ nodiabetes_group data)

/-- Number of rows of `d` carrying label `b`. -/
def countLabel (b : Bool) (d : List Record) : Nat :=
  (d.filter (fun r => r.label == b)).length

/-- Definition following the SPEC's words, for comparison with `data_oversampled`
(claim C2): partition by label; order the two partitions by ascending size into
`minority` and `majority`; draw `len(majority)` samples with replacement from
`minority`; concatenate with `majority` unchanged. -/
def balance_spec (data : List Record) (draws : Nat → Nat) : Option (List Record) :=
  let g1 := diabetes_group data
  let g0 := nodiabetes_group data
  let minority := if g1.length ≤ g0.length then g1 else g0
  let majority := if g1.length ≤ g0.length then g0 else g1
  (sampleRep minority majority.length draws).map (fun s => s ++ majority)

/-- Smallest element of a list of rationals (`0` for the empty list, which the
scaler never hits on nonempty data). -/
def listMin : List ℚ → ℚ
  | [] => 0
  | x :: xs => xs.foldl min x

/-- Largest element of a list of rationals. -/
def listMax : List ℚ → ℚ
  | [] => 0
  | x :: xs => xs.foldl max x

/-- Column `j` of a row-major matrix (missing entries read as `0`). -/
def columnOf (X : List (List ℚ)) (j : Nat) : List ℚ :=
  X.map (fun row => row.getD j 0)

/-- Per-column minimum observed on the fit data (`MinMaxScaler.data_min_`). -/
def colMin (X : List (List ℚ)) (j : Nat) : ℚ := listMin (columnOf X j)

/-- Per-column maximum observed on the fit data (`MinMaxScaler.data_max_`). -/
def colMax (X : List (List ℚ)) (j : Nat) : ℚ := listMax (columnOf X j)

/-- The per-entry transform of `MinMaxScaler`, namely `(x - min) / (max - min)`, with
sklearn's zero-range guard (a constant column is divided by 1). -/
def mmScale (mn mx x : ℚ) : ℚ :=
  (x - mn) / (if mx = mn then 1 else mx - mn)

/-- Transform one row using min/max parameters fit on `fitX`. -/
def mmTransform (fitX : List (List ℚ)) (row : List ℚ) : List ℚ :=
  row.enum.map (fun q => mmScale (colMin fitX q.1) (colMax fitX q.1) q.2)

/-- Embedding of `MinMaxScaler().fit_transform(X)` (source lines 64, 165, 289): parameters are
fit on `X` itself and immediately applied to `X`. -/
def fit_transform (X : List (List ℚ)) : List (List ℚ) :=
  X.map (mmTransform X)

/-- Rows of `X` whose index satisfies `p`, keeping order.  `i` is the index of
the first row of the argument list. -/
def selectRowsAux (p : Nat → Bool) : Nat → List (List ℚ) → List (List ℚ)
  | _, [] => []
  | i, row :: rest =>
    if p i then row :: selectRowsAux p (i + 1) rest else selectRowsAux p (i + 1) rest

/-- Row selection by index predicate.  `train_test_split(..., random_state=123)`
partitions the rows into a test part and a train part; which original row lands
in the test part is a fixed function of the seed, embedded as the predicate
`p` (row order inside each part is irrelevant to the claims). -/
def selectRows (p : Nat → Bool) (X : List (List ℚ)) : List (List ℚ) :=
  selectRowsAux p 0 X

/-- Embedding of `X_sc = MinMaxScaler().fit_transform(X)` (source line 64): the scaler is fit
on the FULL matrix `X`, before any train/test split. -/
def X_sc (X : List (List ℚ)) : List (List ℚ) := fit_transform X

/-- The train part of `train_test_split(X_sc, ...)` (source line 67): rows of the
already-scaled matrix whose index is not in the test set. -/
def X_train (X : List (List ℚ)) (testIdx : Nat → Bool) : List (List ℚ) :=
  selectRows (fun i => !(testIdx i)) (X_sc X)

/-- The test part of `train_test_split(X_sc, ...)` (source line 67). -/
def X_test (X : List (List ℚ)) (testIdx : Nat → Bool) : List (List ℚ) :=
  selectRows testIdx (X_sc X)

/-- Scalar `np.round`: round to the nearest integer, ties to the nearest
EVEN integer (IEEE round-half-to-even, numpy's documented behaviour). -/
def npRound (q : ℚ) : ℤ :=
  if q - (⌊q⌋ : ℚ) < 1/2 then ⌊q⌋
  else if (1 : ℚ)/2 < q - (⌊q⌋ : ℚ) then ⌊q⌋ + 1
  else if ⌊q⌋ % 2 = 0 then ⌊q⌋ else ⌊q⌋ + 1

/-- A 2×2 confusion matrix: `cab` counts the pairs with actual class `a` and
predicted class `b` (rows = actual, columns = predicted). -/
structure ConfMat where
  c00 : Nat
  c01 : Nat
  c10 : Nat
  c11 : Nat
deriving DecidableEq, Repr

/-- One accumulation step of the confusion-matrix computation: bump the cell
addressed by (actual, predicted).  Restricted to the binary-label case of the
source, where every rounded sigmoid output lands in {0, 1}. -/
def confMatStep (m : ConfMat) (a : Bool) (pred : ℤ) : ConfMat :=
  if a = false ∧ pred = 0 then { m with c00 := m.c00 + 1 }
  else if a = false ∧ pred = 1 then { m with c01 := m.c01 + 1 }
  else if a = true ∧ pred = 0 then { m with c10 := m.c10 + 1 }
  else if a = true ∧ pred = 1 then { m with c11 := m.c11 + 1 }
  else m

/-- Embedding of `metrics.confusion_matrix(y_test, np.round(y_pred))` (source line 122):
each predicted probability is rounded by `np.round` and tallied against the
true binary label. -/
def confusion_matrix (actual : List Bool) (preds : List ℚ) : ConfMat :=
  (actual.zip preds).foldl (fun m q => confMatStep m q.1 (npRound q.2)) ⟨0, 0, 0, 0⟩

/-- The matrix in sklearn's nested-list layout `[[c00, c01], [c10, c11]]`. -/
def toLists (m : ConfMat) : List (List Nat) :=
  [[m.c00, m.c01], [m.c10, m.c11]]

/-- Declarative cell count: the number of (actual, probability) pairs with
actual class `a` whose probability rounds to `j`. -/
def pairCount (a : Bool) (j : ℤ) (l : List (Bool × ℚ)) : Nat :=
  (l.filter (fun q => q.1 == a && npRound q.2 == j)).length

/-- One trial of the hyperparameter search: the trial index and the recorded
validation objective.  Modelled from the spec: the search engine itself lives in
the external keras-tuner library; only its configuration and invocation (source
lines 82-90) are in the repository.  The objective is `WithBot ℚ`; `⊥` is the
−∞ recorded for a diverged trial. -/
structure Trial where
  idx : Nat
  objective : WithBot ℚ
deriving DecidableEq, Repr

/-- Modelled from the spec: the objective recorded for one trial — a finite
validation accuracy is kept, a not-a-number result of diverged training
(embedded as `none`) is recorded as −∞ (`⊥`), never raised as an error. -/
def recordObjective (raw : Option ℚ) : WithBot ℚ :=
  match raw with
  | none => ⊥
  | some q => (q : WithBot ℚ)

/-- Modelled from the spec: execute the whole trial budget; the `i`-th raw
outcome becomes trial `i`, and every trial is recorded (the search continues
past divergent trials rather than aborting). -/
def runSearch (results : List (Option ℚ)) : List Trial :=
  results.enum.map (fun q => ⟨q.1, recordObjective q.2⟩)

/-- Ranking order on trials, modelled from the spec: strictly larger objective
first; equal objectives are ranked by earlier trial index. -/
def trialBefore (t u : Trial) : Prop :=
  u.objective < t.objective ∨ (t.objective = u.objective ∧ t.idx ≤ u.idx)

instance : DecidableRel trialBefore := fun t u => by
  unfold trialBefore; infer_instance

instance : IsTotal Trial trialBefore where
  total t u := by
    rcases lt_trichotomy t.objective u.objective with h | h | h
    · exact Or.inr (Or.inl h)
    · rcases Nat.le_total t.idx u.idx with hle | hle
      · exact Or.inl (Or.inr ⟨h, hle⟩)
      · exact Or.inr (Or.inr ⟨h.symm, hle⟩)
    · exact Or.inl (Or.inl h)

instance : IsTrans Trial trialBefore where
  trans t u v htu huv := by
    rcases htu with h1 | ⟨h1, h1i⟩ <;> rcases huv with h2 | ⟨h2, h2i⟩
    · exact Or.inl (h2.trans h1)
    · exact Or.inl (h2 ▸ h1)
    · exact Or.inl (h1 ▸ h2)
    · exact Or.inr ⟨h1.trans h2, h1i.trans h2i⟩

/-- Modelled from the spec: `tuner.get_best_hyperparameters()` (source line 96)
exposes the trials sorted best-first under the stable ranking order. -/
def get_best_trials (ts : List Trial) : List Trial :=
  List.insertionSort trialBefore ts

/-- Modelled from the spec: a copy of `eval_X` in which only column `f` is
shuffled — row `i` receives, in column `f`, the value that row `π i` held
there; every other column is untouched.  (`PermutationImportance` itself lives
in the external eli5 package; only its invocation, source line 244, is in the
repository.) -/
def permuteColumn (X : List (List ℚ)) (f : Nat) (π : Nat → Nat) : List (List ℚ) :=
  X.enum.map (fun q => q.2.set f ((X.getD (π q.1) []).getD f 0))

/-- Modelled from the spec: `importance(f) = baseline − mean(score_shuffled)`,
the scorer `score` absorbing the fitted model and the held-out labels
(`score(model, ·, eval_y)`). -/
def importanceOf (score : List (List ℚ) → ℚ) (X : List (List ℚ)) (f : Nat)
    (perms : List (Nat → Nat)) : ℚ :=
  score X - (perms.map (fun π => score (permuteColumn X f π))).sum / (perms.length : ℚ)

/-- Modelled from the spec: one importance score per feature, feature `f` using
the shuffle list `shuffles f`; no feature is dropped. -/
def rankImportances (score : List (List ℚ) → ℚ) (X : List (List ℚ))
    (numFeatures : Nat) (shuffles : Nat → List (Nat → Nat)) : List ℚ :=
  (List.range numFeatures).map (fun f => importanceOf score X f (shuffles f))

/-- A linear-congruential step, standing in for the library PRNG: every random
draw below is a pure function of the integer seed. -/
def lcg (s : Nat) : Nat := (1103515245 * s + 12345) % 2147483648

/-- The draw stream derived from a seed: the `i`-th draw takes `i + 1` steps of
the generator. -/
def drawStream (seed : Nat) : Nat → Nat := fun i => lcg^[i + 1] seed

/-- One full run of the balancing cell with the sampling source seeded
(`sample(..., random_state=seed)`): the drawn rows are a pure function of the
seed. -/
def balance_run (d : List Record) (seed : Nat) : Option (List Record) :=
  data_oversampled d (drawStream seed)

/-- Modelled from the spec: the shuffles the importance ranker derives from
`random_state=seed` — for feature `f`, one row-index map per repeat. -/
def shufflesFromSeed (seed n_repeats nrows : Nat) : Nat → List (Nat → Nat) :=
  fun f => (List.range n_repeats).map
    (fun r => fun i => drawStream (seed + f * n_repeats + r) i % (nrows + 1))

/-- One full run of the permutation-importance ranker with a given
`random_state` seed (the source passes `random_state=1`). -/
def rank_run (score : List (List ℚ) → ℚ) (X : List (List ℚ))
    (numFeatures n_repeats seed : Nat) : List ℚ :=
  rankImportances score X numFeatures (shufflesFromSeed seed n_repeats X.length)

end DiabetesRisk

namespace DiabetesRisk

/- ## Theorems -/

theorem countLabel_append (b : Bool) (s t : List Record) :
    countLabel b (s ++ t) = countLabel b s + countLabel b t := by
  simp [countLabel, List.filter_append]

theorem mem_diabetes_group {data : List Record} {r : Record}
    (h : r ∈ diabetes_group data) : r ∈ data ∧ r.label = true := by
  have := List.mem_filter.mp h
  simpa using this

theorem mem_nodiabetes_group {data : List Record} {r : Record}
    (h : r ∈ nodiabetes_group data) : r ∈ data ∧ r.label = false := by
  have := List.mem_filter.mp h
  simpa using this

theorem sampleRep_length {g : List Record} {n : Nat} {draws : Nat → Nat}
    {s : List Record} (h : sampleRep g n draws = some s) : s.length = n := by
  unfold sampleRep at h
  split at h
  · cases h; simp_all
  · split at h
    · cases h
    · cases h; simp

theorem sampleRep_mem {g : List Record} {n : Nat} {draws : Nat → Nat}
    {s : List Record} (h : sampleRep g n draws = some s) :
    ∀ r ∈ s, r ∈ g := by
  unfold sampleRep at h
  split at h
  · cases h; intro r hr; cases hr
  · split at h
    · cases h
    · rename_i hn hg
      cases h
      intro r hr
      obtain ⟨i, _, hi⟩ := List.mem_map.mp hr
      have hpos : 0 < g.length := List.length_pos.mpr hg
      have hlt : draws i % g.length < g.length := Nat.mod_lt _ hpos
      rw [← hi, List.getD_eq_getElem _ _ hlt]
      exact List.getElem_mem hlt

theorem countLabel_eq_length_of_all {b : Bool} {s : List Record}
    (h : ∀ r ∈ s, r.label = b) : countLabel b s = s.length := by
  unfold countLabel
  rw [List.filter_length_eq_length.mpr]
  intro r hr
  simp [h r hr]

theorem countLabel_eq_zero_of_none {b : Bool} {s : List Record}
    (h : ∀ r ∈ s, r.label ≠ b) : countLabel b s = 0 := by
  unfold countLabel
  rw [List.length_eq_zero]
  rw [List.filter_eq_nil_iff]
  intro r hr
  simp [h r hr]

theorem countLabel_nodiabetes (data : List Record) :
    countLabel false (nodiabetes_group data) = (nodiabetes_group data).length ∧
    countLabel true (nodiabetes_group data) = 0 := by
  constructor
  · exact countLabel_eq_length_of_all (fun r hr => (mem_nodiabetes_group hr).2)
  · exact countLabel_eq_zero_of_none
      (fun r hr => by simp [(mem_nodiabetes_group hr).2])

/-- C1: for every input dataset with at least one record per class, the
oversampled dataset has the two label classes with equal cardinality, and every
record of the result is a record of the original dataset. -/
theorem balance_equalizes_classes (d : List Record) (draws : Nat → Nat)
    (h1 : diabetes_group d ≠ []) (h0 : nodiabetes_group d ≠ []) :
    ∃ out, data_oversampled d draws = some out ∧
      countLabel true out = countLabel false out ∧
      ∀ r ∈ out, r ∈ d := by
  have hex : ∃ s, diabetes_group_oversampled d draws = some s := by
    unfold diabetes_group_oversampled sampleRep
    by_cases hn : (nodiabetes_group d).length = 0
    · simp [hn]
    · simp [hn, h1]
  obtain ⟨s, hs⟩ := hex
  refine ⟨s ++ nodiabetes_group d, ?_, ?_, ?_⟩
  · simp [data_oversampled, hs]
  · have hmem : ∀ r ∈ s, r ∈ diabetes_group d := sampleRep_mem hs
    have hlen : s.length = (nodiabetes_group d).length := sampleRep_length hs
    have hst : countLabel true s = s.length :=
      countLabel_eq_length_of_all (fun r hr => (mem_diabetes_group (hmem r hr)).2)
    have hsf : countLabel false s = 0 :=
      countLabel_eq_zero_of_none
        (fun r hr => by simp [(mem_diabetes_group (hmem r hr)).2])
    rw [countLabel_append, countLabel_append, hst, hsf,
      (countLabel_nodiabetes d).1, (countLabel_nodiabetes d).2, hlen]
    omega
  · intro r hr
    rcases List.mem_append.mp hr with h | h
    · exact (mem_diabetes_group (sampleRep_mem hs r h)).1
    · exact (mem_nodiabetes_group h).1

/-- Concrete instantiation of `balance_equalizes_classes`: one record per class. -/
theorem balance_equalizes_classes_witness :
    ∃ out, data_oversampled [⟨true, []⟩, ⟨false, []⟩] (fun _ => 0) = some out ∧
      countLabel true out = countLabel false out ∧
      ∀ r ∈ out, r ∈ [(⟨true, []⟩ : Record), ⟨false, []⟩] :=
  balance_equalizes_classes _ _ (by decide) (by decide)

/-- Deconstruction of a successful balancing run: the output is the with-replacement
sample of the label-1 partition (of size `len(class 0)`) followed by the label-0
partition. -/
theorem data_oversampled_eq {d : List Record} {draws : Nat → Nat} {out : List Record}
    (h : data_oversampled d draws = some out) :
    ∃ s, sampleRep (diabetes_group d) (nodiabetes_group d).length draws = some s ∧
      out = s ++ nodiabetes_group d := by
  unfold data_oversampled diabetes_group_oversampled at h
  cases hs : sampleRep (diabetes_group d) (nodiabetes_group d).length draws with
  | none => rw [hs] at h; cases h
  | some s =>
    rw [hs] at h
    exact ⟨s, rfl, by simpa using h.symm⟩

theorem nodiabetes_group_of_oversampled {d : List Record} {draws : Nat → Nat}
    {out : List Record} (h : data_oversampled d draws = some out) :
    nodiabetes_group out = nodiabetes_group d := by
  obtain ⟨s, hs, rfl⟩ := data_oversampled_eq h
  have h1 : (s.filter (fun r => r.label == false)) = [] := by
    rw [List.filter_eq_nil_iff]
    intro r hr
    simp [(mem_diabetes_group (sampleRep_mem hs r hr)).2]
  have h2 : ((nodiabetes_group d).filter (fun r => r.label == false)) =
      nodiabetes_group d := by
    rw [List.filter_eq_self]
    intro r hr
    simp [(mem_nodiabetes_group hr).2]
  show (s ++ nodiabetes_group d).filter (fun r => r.label == false) = nodiabetes_group d
  rw [List.filter_append, h1, h2, List.nil_append]

/-- C2 counterexample: on a dataset whose label-1 class is the LARGER one
(three label-1 records, one label-0 record), the code resamples the larger
class down to one record; the spec's minority-oversampling algorithm would
instead keep the three label-1 records and oversample the label-0 record.
The larger class does not pass through unchanged: its count drops from 3 to 1. -/
theorem balance_resamples_majority_counterexample :
    data_oversampled [⟨true, []⟩, ⟨true, []⟩, ⟨true, []⟩, ⟨false, []⟩] (fun _ => 0) =
      some [⟨true, []⟩, ⟨false, []⟩] ∧
    balance_spec [⟨true, []⟩, ⟨true, []⟩, ⟨true, []⟩, ⟨false, []⟩] (fun _ => 0) =
      some [⟨false, []⟩, ⟨false, []⟩, ⟨false, []⟩, ⟨true, []⟩, ⟨true, []⟩, ⟨true, []⟩] ∧
    data_oversampled [⟨true, []⟩, ⟨true, []⟩, ⟨true, []⟩, ⟨false, []⟩] (fun _ => 0) ≠
      balance_spec [⟨true, []⟩, ⟨true, []⟩, ⟨true, []⟩, ⟨false, []⟩] (fun _ => 0) ∧
    countLabel true [(⟨true, []⟩ : Record), ⟨true, []⟩, ⟨true, []⟩, ⟨false, []⟩] = 3 ∧
    countLabel true [(⟨true, []⟩ : Record), ⟨false, []⟩] = 1 := by
  decide

/-- C2 amended: the balancing code partitions by label and ALWAYS resamples the
label-1 (diabetes) partition, drawing `len(label-0 partition)` samples with
replacement, while the label-0 partition always passes through unchanged — it is
the smaller class that is resampled only when the label-1 class happens to be the
minority. -/
theorem balance_resamples_positive_class (d : List Record) (draws : Nat → Nat)
    (out : List Record) (h : data_oversampled d draws = some out) :
    nodiabetes_group out = nodiabetes_group d ∧
    (∀ r ∈ out, r.label = true → r ∈ diabetes_group d) ∧
    countLabel true out = (nodiabetes_group d).length := by
  obtain ⟨s, hs, rfl⟩ := data_oversampled_eq h
  refine ⟨nodiabetes_group_of_oversampled h, ?_, ?_⟩
  · intro r hr hlab
    rcases List.mem_append.mp hr with hmem | hmem
    · exact sampleRep_mem hs r hmem
    · exact absurd hlab (by simp [(mem_nodiabetes_group hmem).2])
  · have hst : countLabel true s = s.length :=
      countLabel_eq_length_of_all
        (fun r hr => (mem_diabetes_group (sampleRep_mem hs r hr)).2)
    rw [countLabel_append, hst, (countLabel_nodiabetes d).2, sampleRep_length hs]
    omega

/-- Concrete instantiation of `balance_resamples_positive_class`. -/
theorem balance_resamples_positive_class_witness :
    nodiabetes_group [⟨true, []⟩, ⟨false, []⟩] =
      nodiabetes_group [⟨true, []⟩, ⟨false, []⟩] ∧
    (∀ r ∈ [(⟨true, []⟩ : Record), ⟨false, []⟩], r.label = true →
      r ∈ diabetes_group [⟨true, []⟩, ⟨false, []⟩]) ∧
    countLabel true [(⟨true, []⟩ : Record), ⟨false, []⟩] =
      (nodiabetes_group [⟨true, []⟩, ⟨false, []⟩]).length :=
  balance_resamples_positive_class [⟨true, []⟩, ⟨false, []⟩] (fun _ => 0)
    [⟨true, []⟩, ⟨false, []⟩] (by decide)

/-- C3 counterexample: a dataset with two distinct records per class, already
balanced.  The code still draws `len(class 0)` = 2 samples with replacement from
the label-1 partition; under the draw stream that always picks position 0 the
record `⟨true,[0]⟩` is duplicated and `⟨true,[1]⟩` is dropped, so the result is
NOT the two partitions concatenated unchanged. -/
theorem balance_balanced_counterexample :
    countLabel true [(⟨true, [0]⟩ : Record), ⟨true, [1]⟩, ⟨false, [0]⟩, ⟨false, [1]⟩] =
      countLabel false [(⟨true, [0]⟩ : Record), ⟨true, [1]⟩, ⟨false, [0]⟩, ⟨false, [1]⟩] ∧
    data_oversampled [⟨true, [0]⟩, ⟨true, [1]⟩, ⟨false, [0]⟩, ⟨false, [1]⟩] (fun _ => 0) =
      some [⟨true, [0]⟩, ⟨true, [0]⟩, ⟨false, [0]⟩, ⟨false, [1]⟩] ∧
    data_oversampled [⟨true, [0]⟩, ⟨true, [1]⟩, ⟨false, [0]⟩, ⟨false, [1]⟩] (fun _ => 0) ≠
      some (diabetes_group [⟨true, [0]⟩, ⟨true, [1]⟩, ⟨false, [0]⟩, ⟨false, [1]⟩] ++
        nodiabetes_group [⟨true, [0]⟩, ⟨true, [1]⟩, ⟨false, [0]⟩, ⟨false, [1]⟩]) ∧
    List.count (⟨true, [0]⟩ : Record)
      [(⟨true, [0]⟩ : Record), ⟨true, [0]⟩, ⟨false, [0]⟩, ⟨false, [1]⟩] = 2 := by
  decide

/-- C3 amended: on an already-balanced input the label-0 partition passes through
unchanged and the class counts are preserved (and every output record is an input
record), but the label-1 partition is still re-drawn with replacement, so its
records may be duplicated or dropped rather than concatenated unchanged. -/
theorem balance_balanced_input (d : List Record) (draws : Nat → Nat)
    (out : List Record) (hbal : countLabel true d = countLabel false d)
    (h : data_oversampled d draws = some out) :
    countLabel true out = countLabel true d ∧
    countLabel false out = countLabel false d ∧
    nodiabetes_group out = nodiabetes_group d ∧
    ∀ r ∈ out, r ∈ d := by
  obtain ⟨s, hs, rfl⟩ := data_oversampled_eq h
  have hcf : countLabel false d = (nodiabetes_group d).length := by
    simp [countLabel, nodiabetes_group]
  have hct : countLabel true (s ++ nodiabetes_group d) = (nodiabetes_group d).length := by
    have hst : countLabel true s = s.length :=
      countLabel_eq_length_of_all
        (fun r hr => (mem_diabetes_group (sampleRep_mem hs r hr)).2)
    rw [countLabel_append, hst, (countLabel_nodiabetes d).2, sampleRep_length hs]
    omega
  refine ⟨?_, ?_, nodiabetes_group_of_oversampled h, ?_⟩
  · rw [hct, hbal, hcf]
  · have hsf : countLabel false s = 0 :=
      countLabel_eq_zero_of_none
        (fun r hr => by simp [(mem_diabetes_group (sampleRep_mem hs r hr)).2])
    rw [countLabel_append, hsf, (countLabel_nodiabetes d).1, hcf]
    omega
  · intro r hr
    rcases List.mem_append.mp hr with hmem | hmem
    · exact (mem_diabetes_group (sampleRep_mem hs r hmem)).1
    · exact (mem_nodiabetes_group hmem).1

/-- Concrete instantiation of `balance_balanced_input`. -/
theorem balance_balanced_input_witness :
    countLabel true [(⟨true, []⟩ : Record), ⟨false, []⟩] =
      countLabel true [(⟨true, []⟩ : Record), ⟨false, []⟩] ∧
    countLabel false [(⟨true, []⟩ : Record), ⟨false, []⟩] =
      countLabel false [(⟨true, []⟩ : Record), ⟨false, []⟩] ∧
    nodiabetes_group [⟨true, []⟩, ⟨false, []⟩] =
      nodiabetes_group [⟨true, []⟩, ⟨false, []⟩] ∧
    ∀ r ∈ [(⟨true, []⟩ : Record), ⟨false, []⟩],
      r ∈ [(⟨true, []⟩ : Record), ⟨false, []⟩] :=
  balance_balanced_input [⟨true, []⟩, ⟨false, []⟩] (fun _ => 0)
    [⟨true, []⟩, ⟨false, []⟩] (by decide) (by decide)

theorem selectRowsAux_map (p : Nat → Bool) (f : List ℚ → List ℚ) :
    ∀ (i : Nat) (X : List (List ℚ)),
      selectRowsAux p i (X.map f) = (selectRowsAux p i X).map f := by
  intro i X
  induction X generalizing i with
  | nil => rfl
  | cons row rest ih =>
    by_cases hp : p i
    · simp [selectRowsAux, hp, ih]
    · simp [selectRowsAux, hp, ih]

/-- C4 counterexample: two one-column datasets that agree on every train row
(indices 0 and 1) and differ only in the test row (index 2).  Because the code
fits `MinMaxScaler` on the FULL matrix before splitting, the scaled train rows
differ — `[[0],[1/100]]` versus `[[0],[1]]` — so the value of a test-row entry
does influence the scaling of the train data. -/
theorem scaling_leaks_test_data_counterexample :
    selectRows (fun i => !(i == 2)) [[0], [1], [100]] =
      selectRows (fun i => !(i == 2)) [[0], [1], [(1 : ℚ)]] ∧
    X_train [[0], [1], [100]] (fun i => i == 2) = [[0], [1/100]] ∧
    X_train [[0], [1], [(1 : ℚ)]] (fun i => i == 2) = [[0], [1]] ∧
    X_train [[0], [1], [100]] (fun i => i == 2) ≠
      X_train [[0], [1], [(1 : ℚ)]] (fun i => i == 2) := by
  norm_num [X_train, X_sc, fit_transform, selectRows, selectRowsAux, mmTransform,
    mmScale, colMin, colMax, columnOf, listMin, listMax, List.enum]

/-- C4 amended: the scaler is fit once on the full matrix `X` before the split,
and that single parameter set (per-column min/max of ALL of `X`, test rows
included) is what is applied to both the train part and the test part — there is
no refitting between the two splits, but test-row values do enter the fit. -/
theorem scaling_params_shared_across_splits (X : List (List ℚ)) (testIdx : Nat → Bool) :
    X_train X testIdx = (selectRows (fun i => !(testIdx i)) X).map (mmTransform X) ∧
    X_test X testIdx = (selectRows testIdx X).map (mmTransform X) := by
  constructor
  · unfold X_train X_sc fit_transform selectRows
    exact selectRowsAux_map _ _ 0 X
  · unfold X_test X_sc fit_transform selectRows
    exact selectRowsAux_map _ _ 0 X

theorem confMat_foldl (l : List (Bool × ℚ)) (m : ConfMat) :
    l.foldl (fun m q => confMatStep m q.1 (npRound q.2)) m =
      ⟨m.c00 + pairCount false 0 l, m.c01 + pairCount false 1 l,
       m.c10 + pairCount true 0 l, m.c11 + pairCount true 1 l⟩ := by
  induction l generalizing m with
  | nil => simp [pairCount]
  | cons q rest ih =>
    obtain ⟨a, p⟩ := q
    rw [List.foldl_cons, ih]
    rcases a with _ | _ <;>
      rcases h0 : decide (npRound p = 0) with _ | _ <;>
        rcases h1 : decide (npRound p = 1) with _ | _ <;>
          simp_all [confMatStep, pairCount] <;> omega

theorem npRound_nine_tenths : npRound (9/10) = 1 := by
  have h : ⌊(9/10 : ℚ)⌋ = 0 := by rw [Int.floor_eq_iff] <;> norm_num
  rw [npRound, h]; norm_num

theorem npRound_one_fifth : npRound (1/5) = 0 := by
  have h : ⌊(1/5 : ℚ)⌋ = 0 := by rw [Int.floor_eq_iff] <;> norm_num
  rw [npRound, h]; norm_num

theorem npRound_two_fifths : npRound (2/5) = 0 := by
  have h : ⌊(2/5 : ℚ)⌋ = 0 := by rw [Int.floor_eq_iff] <;> norm_num
  rw [npRound, h]; norm_num

theorem npRound_four_fifths : npRound (4/5) = 1 := by
  have h : ⌊(4/5 : ℚ)⌋ = 0 := by rw [Int.floor_eq_iff] <;> norm_num
  rw [npRound, h]; norm_num

theorem npRound_inv_five : npRound (5⁻¹ : ℚ) = 0 := by
  rw [← one_div]; exact npRound_one_fifth

theorem npRound_half : npRound (1/2) = 0 := by
  have h : ⌊(1/2 : ℚ)⌋ = 0 := by rw [Int.floor_eq_iff] <;> norm_num
  rw [npRound, h]; norm_num

theorem npRound_inv_two : npRound (2⁻¹ : ℚ) = 0 := by
  rw [← one_div]; exact npRound_half

theorem npRound_three_halves : npRound (3/2) = 2 := by
  have h : ⌊(3/2 : ℚ)⌋ = 1 := by rw [Int.floor_eq_iff] <;> norm_num
  rw [npRound, h]; norm_num

theorem npRound_five_halves : npRound (5/2) = 2 := by
  have h : ⌊(5/2 : ℚ)⌋ = 2 := by rw [Int.floor_eq_iff] <;> norm_num
  rw [npRound, h]; norm_num

/-- C5: `evaluate`'s confusion matrix rounds each predicted probability with
`np.round` against the true binary label; the cell at row `a` (actual) and
column `j` (predicted) is the count of test points with actual class `a` whose
probability rounds to `j`; in particular, predictions `[0.9, 0.2, 0.4, 0.8]`
against actuals `[1, 0, 0, 1]` give the matrix `[[2, 0], [0, 2]]`. -/
theorem evaluate_confusion_matrix (actual : List Bool) (preds : List ℚ) :
    confusion_matrix actual preds =
      ⟨pairCount false 0 (actual.zip preds), pairCount false 1 (actual.zip preds),
       pairCount true 0 (actual.zip preds), pairCount true 1 (actual.zip preds)⟩ ∧
    toLists (confusion_matrix [true, false, false, true] [9/10, 1/5, 2/5, 4/5]) =
      [[2, 0], [0, 2]] := by
  constructor
  · rw [confusion_matrix, confMat_foldl]
    simp
  · simp [confusion_matrix, confMatStep, toLists, npRound_nine_tenths,
      npRound_one_fifth, npRound_inv_five, npRound_two_fifths, npRound_four_fifths]

/-- C10: a predicted probability of exactly 0.5 is rounded by `np.round` to 0
(round-half-to-even: 0 is even) and is therefore tallied in the predicted-0
column of the confusion matrix, for either actual class; the threshold 0.5 is
exclusive on the positive side (3/2 likewise rounds to the even 2). -/
theorem half_probability_predicted_negative :
    npRound (1/2) = 0 ∧ npRound (3/2) = 2 ∧ npRound (5/2) = 2 ∧
    toLists (confusion_matrix [false, true] [1/2, 1/2]) = [[1, 0], [1, 0]] := by
  refine ⟨npRound_half, npRound_three_halves, npRound_five_halves, ?_⟩
  simp [confusion_matrix, confMatStep, toLists, npRound_half, npRound_inv_two]

theorem trialBefore_objective_le {t u : Trial} (h : trialBefore t u) :
    u.objective ≤ t.objective := by
  rcases h with h | ⟨h, _⟩
  · exact le_of_lt h
  · exact le_of_eq h.symm

/-- C7: the ranked trial sequence is a permutation of the trials, sorted by the
stable order (non-increasing objective, ties broken by earlier trial index), and
its first element achieves the maximum observed objective. -/
theorem search_ranking_sorted (ts : List Trial) (h : ts ≠ []) :
    (get_best_trials ts).Perm ts ∧
    List.Pairwise trialBefore (get_best_trials ts) ∧
    List.Pairwise (fun t u => u.objective ≤ t.objective) (get_best_trials ts) ∧
    ∃ best rest, get_best_trials ts = best :: rest ∧
      ∀ u ∈ ts, u.objective ≤ best.objective := by
  have hperm : (get_best_trials ts).Perm ts := List.perm_insertionSort trialBefore ts
  have hsorted : List.Pairwise trialBefore (get_best_trials ts) :=
    List.sorted_insertionSort trialBefore ts
  refine ⟨hperm, hsorted, hsorted.imp trialBefore_objective_le, ?_⟩
  cases hbest : get_best_trials ts with
  | nil =>
    exact absurd (hperm.symm.trans (hbest ▸ List.Perm.refl []) |>.eq_nil) h
  | cons best rest =>
    refine ⟨best, rest, rfl, ?_⟩
    intro u hu
    have hu2 : u ∈ best :: rest := hbest ▸ hperm.mem_iff.mpr hu
    rcases List.mem_cons.mp hu2 with rfl | hu3
    · exact le_refl _
    · rw [hbest] at hsorted
      exact trialBefore_objective_le (List.rel_of_pairwise_cons hsorted hu3)

/-- Concrete instantiation of `search_ranking_sorted`: two trials, one diverged. -/
theorem search_ranking_sorted_witness :
    (get_best_trials [⟨0, ((1 : ℚ) : WithBot ℚ)⟩, ⟨1, ⊥⟩]).Perm
      [⟨0, ((1 : ℚ) : WithBot ℚ)⟩, ⟨1, ⊥⟩] ∧
    List.Pairwise trialBefore (get_best_trials [⟨0, ((1 : ℚ) : WithBot ℚ)⟩, ⟨1, ⊥⟩]) ∧
    List.Pairwise (fun t u => u.objective ≤ t.objective)
      (get_best_trials [⟨0, ((1 : ℚ) : WithBot ℚ)⟩, ⟨1, ⊥⟩]) ∧
    ∃ best rest, get_best_trials [⟨0, ((1 : ℚ) : WithBot ℚ)⟩, ⟨1, ⊥⟩] = best :: rest ∧
      ∀ u ∈ [(⟨0, ((1 : ℚ) : WithBot ℚ)⟩ : Trial), ⟨1, ⊥⟩],
        u.objective ≤ best.objective :=
  search_ranking_sorted [⟨0, ((1 : ℚ) : WithBot ℚ)⟩, ⟨1, ⊥⟩] (by simp)

/-- C8: every trial outcome is recorded — a diverged trial (not-a-number
objective, embedded `none`) is recorded at its index with objective −∞ (`⊥`),
and the search still produces a result for every trial in the budget instead of
aborting. -/
theorem search_survives_divergent_trial (results : List (Option ℚ)) (i : Nat)
    (hi : i < results.length) (hdiv : results.getD i (some 0) = none) :
    (runSearch results).length = results.length ∧
    ((runSearch results).getD i ⟨0, ⊥⟩).idx = i ∧
    ((runSearch results).getD i ⟨0, ⊥⟩).objective = ⊥ := by
  have hlen : (runSearch results).length = results.length := by
    simp [runSearch]
  have hi2 : i < (runSearch results).length := hlen ▸ hi
  have hget : (runSearch results).getD i ⟨0, ⊥⟩ =
      ⟨i, recordObjective (results.getD i (some 0))⟩ := by
    rw [List.getD_eq_getElem _ _ hi2]
    rw [List.getD_eq_getElem _ _ hi]
    simp [runSearch]
  refine ⟨hlen, ?_, ?_⟩
  · rw [hget]
  · rw [hget, hdiv]
    rfl

/-- Concrete instantiation of `search_survives_divergent_trial`: the second of
two trials diverges. -/
theorem search_survives_divergent_trial_witness :
    (runSearch [some 1, none]).length = [some (1 : ℚ), none].length ∧
    ((runSearch [some 1, none]).getD 1 ⟨0, ⊥⟩).idx = 1 ∧
    ((runSearch [some 1, none]).getD 1 ⟨0, ⊥⟩).objective = ⊥ :=
  search_survives_divergent_trial [some 1, none] 1 (by simp) rfl

/-- C9: the importance ranker returns one score per feature (no feature
dropped); the score of feature `f` is the baseline minus the mean of the
scores obtained on copies of the matrix with only column `f` shuffled; and a
shuffle of column `f` leaves every other column, and the number of rows,
untouched. -/
theorem permutation_importance_ranks_all_features (score : List (List ℚ) → ℚ)
    (X : List (List ℚ)) (numFeatures : Nat) (shuffles : Nat → List (Nat → Nat))
    (f j : Nat) (π : Nat → Nat) (hf : f < numFeatures) (hj : j ≠ f) :
    (rankImportances score X numFeatures shuffles).length = numFeatures ∧
    (rankImportances score X numFeatures shuffles).getD f 0 =
      score X - ((shuffles f).map (fun π2 => score (permuteColumn X f π2))).sum /
        (((shuffles f).length : ℚ)) ∧
    columnOf (permuteColumn X f π) j = columnOf X j ∧
    (permuteColumn X f π).length = X.length := by
  refine ⟨by simp [rankImportances], ?_, ?_, by simp [permuteColumn]⟩
  · have hf2 : f < (rankImportances score X numFeatures shuffles).length := by
      simpa [rankImportances] using hf
    rw [List.getD_eq_getElem _ _ hf2]
    simp [rankImportances, importanceOf]
  · unfold columnOf permuteColumn
    rw [List.map_map]
    have hrow : ∀ q : Nat × List ℚ,
        ((q.2.set f ((X.getD (π q.1) []).getD f 0)).getD j 0) = q.2.getD j 0 := by
      intro q
      rw [List.getD_eq_getElem?_getD, List.getElem?_set_ne (fun hjf => hj hjf.symm),
        ← List.getD_eq_getElem?_getD]
    calc X.enum.map (fun q => (q.2.set f ((X.getD (π q.1) []).getD f 0)).getD j 0)
        = X.enum.map (fun q => q.2.getD j 0) := List.map_congr_left (fun q _ => hrow q)
      _ = X.map (fun row => row.getD j 0) := by
          rw [← List.enum_map_snd X, List.map_map]
          simp [Function.comp]

/-- Concrete instantiation of `permutation_importance_ranks_all_features`. -/
theorem permutation_importance_ranks_all_features_witness :
    (rankImportances (fun m => (m.length : ℚ)) [[1, 2], [3, 4]] 2
      (fun _ => [fun i => i])).length = 2 ∧
    (rankImportances (fun m => (m.length : ℚ)) [[1, 2], [3, 4]] 2
      (fun _ => [fun i => i])).getD 0 0 =
      (([[1, 2], [3, 4]] : List (List ℚ)).length : ℚ) -
        (([fun i => i].map (fun π2 => ((permuteColumn [[1, 2], [3, 4]] 0 π2).length : ℚ))).sum /
          (([fun i => (i : Nat)].length : ℚ))) ∧
    columnOf (permuteColumn [[1, 2], [3, 4]] 0 (fun i => i)) 1 =
      columnOf [[1, 2], [3, 4]] 1 ∧
    (permuteColumn [[1, 2], [3, 4]] 0 (fun i => i)).length =
      ([[1, 2], [3, 4]] : List (List ℚ)).length :=
  permutation_importance_ranks_all_features (fun m => (m.length : ℚ)) [[1, 2], [3, 4]] 2
    (fun _ => [fun i => i]) 0 1 (fun i => i) (by decide) (by decide)

/-- C6: determinism under the seed — in this embedding every random draw (the
balancer's row draws, the ranker's shuffles) is a pure function of the integer
seed, so two runs with equal seeds retrace the same draws and produce identical
outputs. -/
theorem determinism_under_seed (d : List Record) (score : List (List ℚ) → ℚ)
    (X : List (List ℚ)) (numFeatures n_repeats : Nat) (s1 s2 : Nat) (h : s1 = s2) :
    balance_run d s1 = balance_run d s2 ∧
    rank_run score X numFeatures n_repeats s1 = rank_run score X numFeatures n_repeats s2 := by
  subst h
  exact ⟨rfl, rfl⟩

/-- Concrete instantiation of `determinism_under_seed` at seed 1 (the
`random_state=1` of the source). -/
theorem determinism_under_seed_witness :
    balance_run [⟨true, []⟩, ⟨false, []⟩] 1 = balance_run [⟨true, []⟩, ⟨false, []⟩] 1 ∧
    rank_run (fun m => (m.length : ℚ)) [[1, 2]] 1 1 1 =
      rank_run (fun m => (m.length : ℚ)) [[1, 2]] 1 1 1 :=
  determinism_under_seed [⟨true, []⟩, ⟨false, []⟩] (fun m => (m.length : ℚ))
    [[1, 2]] 1 1 1 1 rfl

end DiabetesRisk
